import Mathlib

/-!
# lifecycle: exit codes, identifier escaping, layer extraction, snapshots

A shallow embedding of the Go sources

* `cmd/exit.go`      (`ErrorFail`, `FailErr`, `FailErrCode`, `FailCode`, `Exit`),
* `launch/launch.go` (`EscapeID`),
* `layers/extract.go` (`tarReader`, `Extract`),

together with models of the `archive` and `snapshot` packages, which the
sources above call but which are described only by the specification.

Go strings are embedded as Lean `String`s (sequences of characters); Go
`int` values are never used arithmetically here and are embedded as `Int`.
-/

set_option autoImplicit false

namespace Lifecycle

/-! ## cmd/exit.go -/

namespace Cmd

def CodeFailed : Int := 1
def CodeInvalidArgs : Int := 3
def CodeFailedDetect : Int := 100
def CodeFailedDetectWithErrors : Int := 101
def CodeDetectError : Int := 102
def CodeFailedBuild : Int := 7
def CodeFailedLaunch : Int := 8
def CodeFailedSave : Int := 10
def CodeIncompatiblePlatformAPI : Int := 11
def CodeIncompatibleBuildpackAPI : Int := 12

mutual
/-- A value of the Go interface type `error`: the nil interface; a non-nil
pointer of type `*ErrorFail`, given by the struct it points to; the nil
pointer of type `*ErrorFail` held in the interface (an interface value that
is itself not nil); or a value of any other dynamic type, of which only the
text `%s` prints for it matters. -/
inductive GoError where
  | nil : GoError
  | errorFail : ErrorFail → GoError
  | nilErrorFail : GoError
  | other : String → GoError
/-- The struct `ErrorFail { Err error; Code int; Action []string }`. -/
inductive ErrorFail where
  | mk (Err : GoError) (Code : Int) (Action : List String) : ErrorFail
end

/-- A run-time panic that ends a call before it returns. -/
inductive Panic where
  | nilDereference
  deriving DecidableEq, Repr

def ErrorFail.Err : ErrorFail → GoError
  | .mk e _ _ => e

def ErrorFail.Code : ErrorFail → Int
  | .mk _ c _ => c

def ErrorFail.Action : ErrorFail → List String
  | .mk _ _ a => a

/-- The method `(*ErrorFail).Error` on a non-nil receiver. `fmt.Sprintf`
formats a non-nil error `e.Err` under `%s` with its own `Error` method, and
prints `<nil>` where that method panics on a nil pointer receiver. -/
def ErrorFail.Error : ErrorFail → String
  | .mk e _ a =>
    let message := "failed to " ++ " ".intercalate a
    match e with
    | .nil => message
    | .errorFail f => message ++ ": " ++ ErrorFail.Error f
    | .nilErrorFail => message ++ ": " ++ "<nil>"
    | .other s => message ++ ": " ++ s

/-- `FailErrCode(err, code, action...)`: the address of a fresh struct, never
nil. -/
def FailErrCode (err : GoError) (code : Int) (action : List String) : ErrorFail :=
  .mk err code action

/-- `FailCode(code, action...)`. -/
def FailCode (code : Int) (action : List String) : ErrorFail :=
  FailErrCode .nil code action

/-- `FailErr(err, action...)`. The type assertion `err.(*ErrorFail)` succeeds
on every interface value of dynamic type `*ErrorFail`, the nil pointer
included; reading `err.Code` through the nil pointer panics. -/
def FailErr (err : GoError) (action : List String) : Except Panic ErrorFail :=
  match err with
  | .errorFail e => .ok (FailErrCode err e.Code action)
  | .nilErrorFail => .error .nilDereference
  | .nil => .ok (FailErrCode err CodeFailed action)
  | .other _ => .ok (FailErrCode err CodeFailed action)

/-- What a call of `Exit` does: the lines handed to `DefaultLogger.Errorf`,
and the status handed to `os.Exit`, or the panic that ends the call before
`os.Exit` is reached. -/
structure ExitEffect where
  logged : List String
  status : Except Panic Int

/-- `Exit(err)`. `os.Exit` does not return, so the first call reached decides
the status. The test `err == nil` holds of the nil interface alone; the nil
pointer of type `*ErrorFail` passes it, is logged, passes the type assertion,
and `err.Code` panics. -/
def Exit (err : GoError) : ExitEffect :=
  match err with
  | .nil => ⟨[], .ok 0⟩
  | .errorFail e => ⟨[e.Error ++ "\n"], .ok e.Code⟩
  | .nilErrorFail => ⟨["<nil>" ++ "\n"], .error .nilDereference⟩
  | .other s => ⟨[s ++ "\n"], .ok CodeFailed⟩

/-- `FailErr` applied once for each action list of `actions`, the last list
of `actions` first, starting from the struct `e`; each result of `FailErr` is
handed on as an `error` holding the pointer returned. -/
def wrapFailErr : List (List String) → ErrorFail → Except Panic ErrorFail
  | [], e => .ok e
  | action :: actions, e =>
    match wrapFailErr actions e with
    | .ok w => FailErr (.errorFail w) action
    | .error p => .error p

end Cmd

/-! ## launch/launch.go -/

namespace Launch

/-- The replacement of every instance of `old` by `new`, from the left. The
`skip` characters still to be passed over belong to an instance of `old`
already replaced. An empty `old` matches before every character and at the
end of the text. -/
def replaceFrom (old new : List Char) : Nat → List Char → List Char
  | 0, [] => if old.isEmpty then new else []
  | _ + 1, [] => []
  | skip + 1, _ :: cs => replaceFrom old new skip cs
  | 0, c :: cs =>
    if old.isEmpty then new ++ c :: replaceFrom old new 0 cs
    else if old.isPrefixOf (c :: cs) then new ++ replaceFrom old new (old.length - 1) cs
    else c :: replaceFrom old new 0 cs

/-- `strings.Replace(s, old, new, -1)`: every non-overlapping instance of
`old`, found from the left, becomes `new`. -/
def stringsReplaceAll (s old new : String) : String :=
  ⟨replaceFrom old.data new.data 0 s.data⟩

/-- `EscapeID(id)`. -/
def EscapeID (id : String) : String :=
  stringsReplaceAll id "/" "_"

end Launch

end Lifecycle


namespace Lifecycle

/-! ## Path names -/

namespace Paths

/-- The segments of a "/"-separated name read so far (`cur` is the segment
being read, last character first). -/
def segmentsFrom : List Char → List Char → List String
  | cur, [] => if cur = [] then [] else [String.mk cur.reverse]
  | cur, c :: cs =>
    if c = '/' then
      if cur = [] then segmentsFrom [] cs else String.mk cur.reverse :: segmentsFrom [] cs
    else segmentsFrom (c :: cur) cs

/-- The path segments of a POSIX-style name; a leading slash and doubled
slashes contribute no segment. -/
def segments (name : String) : List String :=
  segmentsFrom [] name.data

/-- The name a list of segments spells. -/
def joinSegments (segs : List String) : String :=
  "/".intercalate segs

end Paths

/-! ## layers/extract.go -/

namespace Layers

open Paths

/-- One call of a configuring method of `archive.NormalizingTarReader`, with
its arguments. -/
inductive TarOp where
  | Strip (label : String)
  | ExcludePaths (paths : List String)
  | ToWindows
  | PrependDir (dir : String)
  deriving DecidableEq, Repr

/-- The type `archive.NormalizingTarReader`, declared outside the sources, as
the reader under configuration: the calls made on it so far, oldest first.
The source stream `r` is kept apart, as the archive handed to `Untar`. -/
structure NormalizingTarReader where
  calls : List TarOp
  deriving DecidableEq, Repr

/-- `archive.NewNormalizingTarReader`: no call made yet. -/
def NewNormalizingTarReader : NormalizingTarReader := ⟨[]⟩

/-- The call `tr.Strip(label)`. -/
def NormalizingTarReader.Strip (tr : NormalizingTarReader) (label : String) :
    NormalizingTarReader := ⟨tr.calls ++ [.Strip label]⟩

/-- The call `tr.ExcludePaths(paths)`. -/
def NormalizingTarReader.ExcludePaths (tr : NormalizingTarReader) (paths : List String) :
    NormalizingTarReader := ⟨tr.calls ++ [.ExcludePaths paths]⟩

/-- The call `tr.ToWindows()`. -/
def NormalizingTarReader.ToWindows (tr : NormalizingTarReader) :
    NormalizingTarReader := ⟨tr.calls ++ [.ToWindows]⟩

/-- The call `tr.PrependDir(dir)`. -/
def NormalizingTarReader.PrependDir (tr : NormalizingTarReader) (dir : String) :
    NormalizingTarReader := ⟨tr.calls ++ [.PrependDir dir]⟩

/-- `tarReader(r, dest)`, with `runtime.GOOS` as the argument `goos`. -/
def tarReader (goos : String) (dest : String) : NormalizingTarReader :=
  let tr := NewNormalizingTarReader
  let tr := tr.Strip "Hives"
  let tr := tr.Strip "Files"
  if goos = "windows" then
    let tr := tr.ExcludePaths ["Hives"]
    let tr := tr.Strip "Files"
    let tr := tr.ToWindows
    let dest := if dest = "" then "c:" else dest
    tr.PrependDir dest
  else
    tr.PrependDir dest

/-- The directory handed to the call of `PrependDir` made last, if any. -/
def prependDirOf (tr : NormalizingTarReader) : Option String :=
  tr.calls.foldl (fun acc op => match op with | .PrependDir d => some d | _ => acc) none

/-- The labels of the `Strip` calls, in call order. -/
def stripLabels (tr : NormalizingTarReader) : List String :=
  tr.calls.filterMap (fun op => match op with | .Strip l => some l | _ => none)

/-- The paths of all `ExcludePaths` calls, in call order. -/
def excludedPaths (tr : NormalizingTarReader) : List String :=
  (tr.calls.filterMap (fun op => match op with | .ExcludePaths ps => some ps | _ => none)).flatten

/-- Whether `ToWindows` was called. -/
def convertsToWindows (tr : NormalizingTarReader) : Bool :=
  tr.calls.any (fun op => match op with | .ToWindows => true | _ => false)

/-- Whether `ExcludePaths` was called. -/
def configuresExclusion (tr : NormalizingTarReader) : Bool :=
  tr.calls.any (fun op => match op with | .ExcludePaths _ => true | _ => false)

/-- The stage of the normalizer a configuring call belongs to:
0 Strip, 1 Exclude, 2 Platform conversion, 3 Prepend destination. -/
def TarOp.stage : TarOp → Nat
  | .Strip _ => 0
  | .ExcludePaths _ => 1
  | .ToWindows => 2
  | .PrependDir _ => 3

/-- The calls are made stage by stage: no call of a later stage comes before
a call of an earlier one. -/
def followsStageOrder (tr : NormalizingTarReader) : Prop :=
  List.Pairwise (fun a b => a.stage ≤ b.stage) tr.calls

instance (tr : NormalizingTarReader) : Decidable (followsStageOrder tr) := by
  unfold followsStageOrder; infer_instance

/-! ### The `archive` package, after the specification (§3, §4.2–§4.4) -/

/-- Modelled from the spec: the kinds of tar entry the `archive` package
tells apart, a package absent from the sources (§3, Layer Archive). -/
inductive EntryType where
  | regular
  | directory
  | symlink
  deriving DecidableEq, Repr

/-- Modelled from the spec: the type of a tar entry at the transform stage,
which the absent `archive` package declares (§3: header with name, type,
size, mode, link target, and a body). -/
structure TarEntry where
  name : String
  type : EntryType
  mode : Nat
  linkTarget : String
  body : String
  deriving DecidableEq, Repr

/-- Modelled from the spec: the errors of the absent `archive` package that
extraction meets (§7); each error carries the offending path. -/
inductive ArchiveError where
  | PathTraversalError (name : String)
  | ExtractionError (path : String)
  deriving DecidableEq, Repr

/-- Modelled from the spec: whether a path leaves the directory it is joined
onto (§4.2 Errors, §8 Traversal rejection; the absent `archive` package):
reading the segments from the left, a `..` is met at depth 0. -/
def escapesFrom : Nat → List String → Bool
  | _, [] => false
  | depth, s :: rest =>
    if s = ".." then
      match depth with
      | 0 => true
      | d + 1 => escapesFrom d rest
    else if s = "." then escapesFrom depth rest
    else escapesFrom (depth + 1) rest

/-- Modelled from the spec: whether an entry name as it stands in the archive
escapes (the absent `archive` package; §8: "an archive entry named with a
parent-escaping path"). -/
def escapesRoot (name : String) : Bool :=
  escapesFrom 0 (segments name)

/-- Modelled from the spec: stage 1 for one label, in the absent `archive`
package: a leading segment equal to the label is removed. -/
def stripLabel (label : String) (path : List String) : List String :=
  match path with
  | [] => []
  | s :: rest => if s = label then rest else s :: rest

/-- Modelled from the spec: stage 1 of the Path Normalizer of the absent
`archive` package (§4.2: "Strip: remove the first N path segments matching
configured labels"); the labels are tried in the order they were configured. -/
def stripStage (labels : List String) (path : List String) : List String :=
  labels.foldl (fun p l => stripLabel l p) path

/-- Modelled from the spec: the test of stage 2 of the Path Normalizer of the
absent `archive` package (§4.2: "if the (stripped) path matches any excluded
prefix"): the segments of some excluded path begin the path. -/
def isExcluded (excluded : List String) (path : List String) : Bool :=
  excluded.any (fun ex => (segments ex).isPrefixOf path)

/-- Modelled from the spec: stage 3 of the Path Normalizer of the absent
`archive` package (§4.2: in split-layout mode system-state paths go under the
Hives partition, all other paths under the Files partition). Which paths are
system state the spec leaves open; it is the argument `systemState`. -/
def platformStage (systemState : List String → Bool) (split : Bool) (path : List String) :
    List String :=
  if split then
    if systemState path then "Hives" :: path else "Files" :: path
  else path

/-- Modelled from the spec: the test for a malformed entry name of the Path
Normalizer of the absent `archive` package (§4.2 Errors: "path traversal
sequences like `..` that would escape the destination root"): the name
escapes as it stands in the archive, or the path left by the Strip stage,
the one that goes on to be joined onto the destination root, escapes. -/
def wouldEscape (tr : NormalizingTarReader) (name : String) : Bool :=
  escapesRoot name || escapesFrom 0 (stripStage (stripLabels tr) (segments name))

/-- The path joined onto the destination root for an entry name that is
neither rejected nor excluded: stripped, then converted. -/
def joinedPath (systemState : List String → Bool) (tr : NormalizingTarReader)
    (name : String) : List String :=
  platformStage systemState (convertsToWindows tr)
    (stripStage (stripLabels tr) (segments name))

/-- Modelled from the spec: stage 4 of the Path Normalizer of the absent
`archive` package (§4.2: "join the destination root onto the (possibly
converted) path"). -/
def prependStage (dest : Option String) (path : List String) : String :=
  match dest with
  | none => joinSegments path
  | some d => if d = "" then joinSegments path else d ++ "/" ++ joinSegments path

/-- Modelled from the spec: the Path Normalizer of the absent `archive`
package applied to one entry (§4.2, §4.3). A malformed name, one that would
escape the destination root, is rejected and never rewritten; otherwise
Strip, Exclude, Platform conversion and Prepend destination run in that fixed
order, whatever the order of the configuring calls. `none` is a dropped
entry. Only the header name is rewritten. -/
def normalizeEntry (systemState : List String → Bool) (tr : NormalizingTarReader)
    (e : TarEntry) : Except ArchiveError (Option TarEntry) :=
  if wouldEscape tr e.name then .error (.PathTraversalError e.name)
  else
    let stripped := stripStage (stripLabels tr) (segments e.name)
    if isExcluded (excludedPaths tr) stripped then .ok none
    else
      .ok (some { e with name := prependStage (prependDirOf tr) (joinedPath systemState tr e.name) })

/-- Modelled from the spec: the outcome of `archive.Untar`, a function absent
from the sources: the entries written onto the destination, in order, under
their rewritten names, and the error that stopped the extraction. -/
structure ExtractResult where
  written : List TarEntry
  err : Option ArchiveError
  deriving DecidableEq, Repr

/-- Modelled from the spec: `archive.Untar` over the Tar Transform Pipeline,
both absent from the sources (§4.3, §4.4): the entries are pulled one by one,
a dropped entry is skipped, an emitted entry is written, and the first error
stops the extraction with what was written so far left in place. Writes
themselves do not fail here. -/
def Untar (systemState : List String → Bool) (tr : NormalizingTarReader) :
    List TarEntry → ExtractResult
  | [] => ⟨[], none⟩
  | e :: rest =>
    match normalizeEntry systemState tr e with
    | .error err => ⟨[], some err⟩
    | .ok none => Untar systemState tr rest
    | .ok (some e') =>
      let r := Untar systemState tr rest
      ⟨e' :: r.written, r.err⟩

/-- `Extract(r, dest)`, with `runtime.GOOS` as the argument `goos`, the
archive read from `r` as a list of entries, and `systemState` handed on to
the platform conversion. -/
def Extract (systemState : List String → Bool) (goos : String) (r : List TarEntry)
    (dest : String) : ExtractResult :=
  let tr := tarReader goos dest
  Untar systemState tr r

/-- A regular file entry with the given name and body. -/
def fileEntry (name body : String) : TarEntry :=
  ⟨name, .regular, 0o644, "", body⟩

end Layers

end Lifecycle

namespace Lifecycle

/-! ## The `snapshot` package, after the specification (§3, §4.1) -/

namespace Snapshot

open Paths

/-- Modelled from the spec: a regular file under the Watched Root, as the
absent `snapshot` package meets it (§3): its path relative to the root, its
metadata fingerprint and its content. -/
structure File where
  path : String
  fingerprint : Nat
  content : String
  deriving DecidableEq, Repr

/-- Modelled from the spec: one entry of the Layer Archive the absent
`snapshot` package writes (§3): a directory header, a regular file with its
body, or the whiteout entry for a deleted path. -/
inductive Entry where
  | directory (path : String)
  | file (path : String) (content : String)
  | whiteout (path : String)
  deriving DecidableEq, Repr

/-- Modelled from the spec: the name in the tar header (§3, §6): a whiteout
for `p` is named `.wh.` joined to the base name of `p`, inside the parent
directory of `p`. -/
def Entry.name : Entry → List String
  | .directory p => segments p
  | .file p _ => segments p
  | .whiteout p =>
    match (segments p).reverse with
    | [] => [".wh."]
    | base :: parent => (parent.reverse) ++ [".wh." ++ base]

/-- Whether the entry is a directory header. -/
def Entry.isDir : Entry → Bool
  | .directory _ => true
  | _ => false

/-- Whether the entry is a file or whiteout entry about the path `p`. -/
def Entry.isFor (p : String) : Entry → Bool
  | .directory _ => false
  | .file q _ => q = p
  | .whiteout q => q = p

/-- Whether the entry is about the path `p`, directory headers included. -/
def Entry.touches (p : String) : Entry → Bool
  | .directory q => q = p
  | .file q _ => q = p
  | .whiteout q => q = p

/-- Modelled from the spec: the snapshotter of the `snapshot` package, of
which the sources hold only the test. `RootDir`, `IgnoredPaths` and
`DetectFilesystemIgnoreList` are the fields the test sets; `baseline` is the
Baseline Inventory of §3, relative path to fingerprint. -/
structure KanikoSnapshotter where
  RootDir : String
  IgnoredPaths : List String
  DetectFilesystemIgnoreList : Bool
  baseline : List (String × Nat)
  deriving DecidableEq, Repr

/-- The absolute path of a path relative to the root (`filepath.Join`): one
slash between the two, whether or not the root is written with slashes at
its end. -/
def absPath (root rel : String) : List Char :=
  (root.data.reverse.dropWhile (fun c => c = '/')).reverse ++ '/' :: rel.data

/-- Modelled from the spec: whether the path `p` is the ignored path `ig` or
lies below it (§3, Ignore Set: absolute path prefixes). -/
def isUnder (ig : List Char) (p : List Char) : Bool :=
  p == ig || (ig ++ ['/']).isPrefixOf p

/-- Modelled from the spec: whether a relative path is under the Ignore Set
of the absent `snapshot` package (§3). -/
def KanikoSnapshotter.ignores (s : KanikoSnapshotter) (rel : String) : Bool :=
  s.IgnoredPaths.any (fun ig => isUnder ig.data (absPath s.RootDir rel))

/-- Modelled from the spec: the walk of the Watched Root by the absent
`snapshot` package (§4.1): the files not under the Ignore Set. -/
def KanikoSnapshotter.walk (s : KanikoSnapshotter) (fs : List File) : List File :=
  fs.filter (fun f => !s.ignores f.path)

/-- Modelled from the spec: `Init` of the `snapshot` package, absent from the
sources (§4.1). With dynamic detection on, the Ignore Set is first
augmented with the paths `detected` on the mount table; then the walk records
one fingerprint per file as the Baseline Inventory. The root is readable
here, so no `ScanError` arises. -/
def KanikoSnapshotter.Init (s : KanikoSnapshotter) (detected : List String)
    (fs : List File) : KanikoSnapshotter :=
  let s1 : KanikoSnapshotter :=
    if s.DetectFilesystemIgnoreList then { s with IgnoredPaths := s.IgnoredPaths ++ detected }
    else s
  { s1 with baseline := (s1.walk fs).map (fun f => (f.path, f.fingerprint)) }

/-- The directories above a path: what stands before each of its slashes
(`seen` holds the characters read, last first). -/
def ancestorsFrom : List Char → List Char → List String
  | _, [] => []
  | seen, c :: cs =>
    if c = '/' then String.mk seen.reverse :: ancestorsFrom (c :: seen) cs
    else ancestorsFrom (c :: seen) cs

/-- The directories above a relative path, outermost first. -/
def ancestors (p : String) : List String :=
  (ancestorsFrom [] p.data).filter (fun d => d ≠ "")

/-- Modelled from the spec: the classification of the absent `snapshot`
package (§4.1): whether a file of the current walk is Added (absent in the
baseline) or Modified (present with another fingerprint). -/
def isChanged (baseline : List (String × Nat)) (f : File) : Bool :=
  match baseline.find? (fun b => b.1 = f.path) with
  | none => true
  | some b => b.2 != f.fingerprint

/-- Code points compared from the left; a proper beginning comes first. -/
def charsLe : List Char → List Char → Bool
  | [], _ => true
  | _ :: _, [] => false
  | a :: as, b :: bs =>
    if a.toNat < b.toNat then true
    else if b.toNat < a.toNat then false
    else charsLe as bs

/-- Modelled from the spec: the entry order of the absent `snapshot` package
(§4.1): paths compared segment by segment, so that a directory comes before
what it holds and siblings come in lexicographic order. -/
def pathLe : List String → List String → Bool
  | [], _ => true
  | _ :: _, [] => false
  | a :: as, b :: bs => if a = b then pathLe as bs else charsLe a.data b.data

/-- The order of the archive: by header name. -/
def entryLe (a b : Entry) : Prop :=
  pathLe a.name b.name = true

instance : DecidableRel entryLe := fun a b => by
  unfold entryLe; infer_instance

/-- Modelled from the spec: `TakeSnapshot` of the `snapshot` package, absent
from the sources (§4.1), as the archive it writes. The root is walked
again under the same Ignore Set; an Added or Modified file gives a file
entry with its current content, a path of the baseline absent now gives a
whiteout entry, an unchanged file gives nothing; the directories above an
added or modified path get a header; the entries are put in the order of
their names. Writing the archive does not fail here. -/
def KanikoSnapshotter.TakeSnapshot (s : KanikoSnapshotter) (fs : List File) : List Entry :=
  let cur := s.walk fs
  let changed := cur.filter (isChanged s.baseline)
  let deleted := s.baseline.filter (fun b => !cur.any (fun f => f.path = b.1))
  let dirs := (changed.flatMap (fun f => ancestors f.path)).dedup
  List.insertionSort entryLe
    (dirs.map Entry.directory ++ changed.map (fun f => Entry.file f.path f.content)
      ++ deleted.map (fun b => Entry.whiteout b.1))

/-- The snapshotter of the test, on the root `root`. -/
def testSnapshotter (root : String) : KanikoSnapshotter :=
  { RootDir := root
    IgnoredPaths := [root ++ "/platform", root ++ "/layers", root ++ "/cnb"]
    DetectFilesystemIgnoreList := false
    baseline := [] }

/-- The files the test creates before `Init`; a fingerprint stands for the
metadata of one write. -/
def testFilesAtInit : List File :=
  [ ⟨"cnb/privatefile", 1, "hello\n"⟩,
    ⟨"layers/privatefile", 2, "hello\n"⟩,
    ⟨"file-to-change", 3, "hello\n"⟩,
    ⟨"file-not-to-change", 4, "hello\n"⟩,
    ⟨"file-to-delete", 5, "hello\n"⟩,
    ⟨"bin/file-not-to-change", 6, "hello\n"⟩ ]

/-- The files under the root when the test calls `TakeSnapshot`. -/
def testFilesAtSnapshot : List File :=
  [ ⟨"cnb/privatefile", 1, "hello\n"⟩,
    ⟨"layers/privatefile", 2, "hello\n"⟩,
    ⟨"file-to-change", 10, "hola\n"⟩,
    ⟨"file-not-to-change", 4, "hello\n"⟩,
    ⟨"bin/file-not-to-change", 6, "hello\n"⟩,
    ⟨"newfile", 7, "hello\n"⟩,
    ⟨"my-space/newfile-in-dir", 8, "hello\n"⟩,
    ⟨"layers/file-to-ignore", 11, "hello\n"⟩,
    ⟨"cnb/file-to-ignore", 12, "hello\n"⟩,
    ⟨"platform/file-to-ignore", 13, "hello\n"⟩ ]

end Snapshot

end Lifecycle

/-! # Theorems -/

namespace Lifecycle

open Cmd Launch Layers Paths Snapshot

/-! ## cmd/exit.go -/

/-- C8, refuted as stated: for the nil pointer of type `*ErrorFail` held in
the `error` interface, `FailErr` returns no `ErrorFail`: the type assertion
succeeds and reading `err.Code` panics. -/
theorem FailErr_nil_pointer_panics :
    FailErr .nilErrorFail ["build"] = .error .nilDereference :=
  rfl

/-- C8, amended: for every error `err` other than a nil pointer of type
`*ErrorFail`, and every action list, `FailErr(err, action...)` returns an
`ErrorFail` whose `Err` is `err`, whose `Action` is the given list and whose
`Code` is the code of `err` when `err` is an `*ErrorFail` and `CodeFailed`
(1) otherwise, the nil error included; so wrapping an `ErrorFail` with
`FailErr` any number of times keeps the code of the original. -/
theorem FailErr_keeps_err_action_code (err : GoError) (action : List String)
    (h : err ≠ .nilErrorFail) :
    (∃ r, FailErr err action = .ok r
        ∧ r.Err = err
        ∧ r.Action = action
        ∧ r.Code = (match err with
            | .errorFail e => e.Code
            | _ => CodeFailed))
      ∧ CodeFailed = 1
      ∧ (∀ (actions : List (List String)) (e : ErrorFail),
          ∃ w, wrapFailErr actions e = .ok w ∧ w.Code = e.Code) := by
  refine ⟨?_, rfl, ?_⟩
  · cases err with
    | nil => exact ⟨_, rfl, rfl, rfl, rfl⟩
    | errorFail e => exact ⟨_, rfl, rfl, rfl, rfl⟩
    | nilErrorFail => exact absurd rfl h
    | other msg => exact ⟨_, rfl, rfl, rfl, rfl⟩
  · intro actions e
    induction actions with
    | nil => exact ⟨e, rfl, rfl⟩
    | cons a as ih =>
      obtain ⟨w, hw, hc⟩ := ih
      refine ⟨FailErrCode (.errorFail w) w.Code a, ?_, hc⟩
      simp only [wrapFailErr, hw]
      rfl

/-- A witness of amended C8: `FailErr` wrapping the `ErrorFail` that
`FailCode(CodeFailedBuild, "build")` returns. -/
theorem FailErr_keeps_err_action_code_witness :
    GoError.errorFail (FailCode CodeFailedBuild ["build"]) ≠ .nilErrorFail
      ∧ (∃ r, FailErr (.errorFail (FailCode CodeFailedBuild ["build"])) ["export"] = .ok r
          ∧ r.Err = .errorFail (FailCode CodeFailedBuild ["build"])
          ∧ r.Action = ["export"]
          ∧ r.Code = (FailCode CodeFailedBuild ["build"]).Code)
      ∧ CodeFailed = 1
      ∧ (∀ (actions : List (List String)) (e : ErrorFail),
          ∃ w, wrapFailErr actions e = .ok w ∧ w.Code = e.Code) :=
  ⟨fun h => GoError.noConfusion h,
    FailErr_keeps_err_action_code (.errorFail (FailCode CodeFailedBuild ["build"])) ["export"]
      (fun h => GoError.noConfusion h)⟩

/-- C9, refuted as stated: the nil pointer of type `*ErrorFail` held in the
`error` interface is a non-nil `err` that is an `*ErrorFail`, and `Exit` hands
no status to `os.Exit` for it: reading `err.Code` panics first. -/
theorem Exit_nil_pointer_panics :
    (Exit .nilErrorFail).status = .error .nilDereference :=
  rfl

/-- C9, amended: with `Exit` modelled as the status it hands to `os.Exit`:
`Exit(nil)` exits with 0, `Exit` of a non-nil pointer of type `*ErrorFail`
exits with the code of that error, and `Exit` of a non-nil error of any other
type exits with `CodeFailed`, which is 1. -/
theorem Exit_status :
    (Exit .nil).status = .ok 0
      ∧ (∀ e : ErrorFail, (Exit (.errorFail e)).status = .ok e.Code)
      ∧ (∀ msg : String, (Exit (.other msg)).status = .ok CodeFailed)
      ∧ CodeFailed = 1 :=
  ⟨rfl, fun _ => rfl, fun _ => rfl, rfl⟩

/-! ## launch/launch.go -/

/-- Replacing the one-character text "/" by "_" works character by character. -/
theorem replaceFrom_slash (s : List Char) :
    replaceFrom ['/'] ['_'] 0 s = s.map (fun c => if c = '/' then '_' else c) := by
  induction s with
  | nil => rfl
  | cons c cs ih =>
    by_cases h : c = '/'
    · subst h
      simp [replaceFrom, List.isPrefixOf, ih]
    · have hp : List.isPrefixOf ['/'] (c :: cs) = false := by
        simp [List.isPrefixOf]
        intro hc; exact absurd hc.symm h
      rw [replaceFrom, if_neg (by simp), if_neg (by simp [hp]), ih, List.map_cons, if_neg h]

/-- A map that keeps the encoded size of every character keeps the encoded
size of a text. -/
theorem utf8Len_map (f : Char → Char) (hf : ∀ c, (f c).utf8Size = c.utf8Size)
    (l : List Char) : String.utf8Len (l.map f) = String.utf8Len l := by
  induction l with
  | nil => rfl
  | cons c cs ih =>
    rw [List.map_cons, String.utf8Len_cons, String.utf8Len_cons, ih, hf]

/-- Both '/' and '_' are encoded in one byte. -/
theorem escape_utf8Size (c : Char) :
    (if c = '/' then '_' else c).utf8Size = c.utf8Size := by
  by_cases h : c = '/'
  · subst h; decide
  · simp [h]

/-- The characters of `EscapeID id`. -/
theorem EscapeID_data (id : String) :
    (EscapeID id).data = id.data.map (fun c => if c = '/' then '_' else c) := by
  show replaceFrom "/".data "_".data 0 id.data = _
  exact replaceFrom_slash id.data

/-- C10: for every string `id`, `EscapeID(id)` has the length of `id`, has '_'
wherever `id` has '/' and the character of `id` everywhere else; so the result
holds no '/', and escaping twice is escaping once. -/
theorem EscapeID_spec (id : String) :
    (EscapeID id).length = id.length
      ∧ (EscapeID id).utf8ByteSize = id.utf8ByteSize
      ∧ (∀ i : Nat, (EscapeID id).data[i]? =
          (id.data[i]?).map (fun c => if c = '/' then '_' else c))
      ∧ ¬ '/' ∈ (EscapeID id).data
      ∧ EscapeID (EscapeID id) = EscapeID id := by
  have hd := EscapeID_data id
  refine ⟨?_, ?_, ?_, ?_, ?_⟩
  · show (EscapeID id).data.length = id.data.length
    rw [hd, List.length_map]
  · have : EscapeID id = ⟨id.data.map (fun c => if c = '/' then '_' else c)⟩ :=
      String.ext hd
    rw [this]
    simp [String.utf8ByteSize, utf8Len_map _ escape_utf8Size]
  · intro i
    rw [hd, List.getElem?_map]
  · rw [hd]
    simp only [List.mem_map, not_exists, not_and]
    intro c _ hc
    by_cases h : c = '/'
    · simp [h] at hc
    · simp [h] at hc
  · apply String.ext
    rw [EscapeID_data (EscapeID id), hd, List.map_map]
    apply List.map_congr_left
    intro c _
    by_cases h : c = '/'
    · simp [h]
    · simp [h]

/-! ## layers/extract.go -/

/-- The calls `tarReader` makes, in order. -/
theorem tarReader_calls (goos dest : String) :
    (tarReader goos dest).calls =
      if goos = "windows" then
        [.Strip "Hives", .Strip "Files", .ExcludePaths ["Hives"], .Strip "Files", .ToWindows,
          .PrependDir (if dest = "" then "c:" else dest)]
      else [.Strip "Hives", .Strip "Files", .PrependDir dest] := by
  unfold tarReader
  by_cases h : goos = "windows"
  · simp only [h, if_true]
    rfl
  · simp only [h, if_false]
    rfl

/-- C4, refuted as stated: on windows with the destination "/layers" the
calls of `tarReader` do not follow the stage order: the third call sets the
exclusion set and the fourth call is a Strip rule. -/
theorem tarReader_windows_breaks_stage_order :
    ¬ followsStageOrder (tarReader "windows" "/layers")
      ∧ (tarReader "windows" "/layers").calls[2]? = some (.ExcludePaths ["Hives"])
      ∧ (tarReader "windows" "/layers").calls[3]? = some (.Strip "Files") := by
  decide

/-- C4, amended: the calls of `tarReader` follow the stage order Strip,
Exclude, Platform conversion, Prepend destination exactly when the platform
is not windows, where they are Strip("Hives"), Strip("Files"), PrependDir; on
windows they are Strip("Hives"), Strip("Files"), ExcludePaths, Strip("Files"),
ToWindows, PrependDir, with one Strip rule after the exclusion set; on every
platform the exclusion set comes before the conversion and PrependDir is the
call made last. -/
theorem tarReader_stage_order (goos dest : String) :
    (followsStageOrder (tarReader goos dest) ↔ goos ≠ "windows")
      ∧ (tarReader goos dest).calls =
          (if goos = "windows" then
            [.Strip "Hives", .Strip "Files", .ExcludePaths ["Hives"], .Strip "Files", .ToWindows,
              .PrependDir (if dest = "" then "c:" else dest)]
          else [.Strip "Hives", .Strip "Files", .PrependDir dest])
      ∧ (∃ init dir, (tarReader goos dest).calls = init ++ [.PrependDir dir]
          ∧ ∀ op ∈ init, op.stage < 3)
      ∧ List.Pairwise (fun a b => a.stage = 2 → b.stage ≠ 1) (tarReader goos dest).calls := by
  have hc := tarReader_calls goos dest
  refine ⟨?_, hc, ?_, ?_⟩
  · unfold followsStageOrder
    rw [hc]
    by_cases h : goos = "windows"
    · simp [h, TarOp.stage]
    · simp [h, TarOp.stage]
  · by_cases h : goos = "windows"
    · refine ⟨[.Strip "Hives", .Strip "Files", .ExcludePaths ["Hives"], .Strip "Files",
        .ToWindows], if dest = "" then "c:" else dest, ?_, ?_⟩
      · rw [hc]; simp [h]
      · intro op hop
        simp at hop
        rcases hop with rfl | rfl | rfl | rfl | rfl <;> simp [TarOp.stage]
    · refine ⟨[.Strip "Hives", .Strip "Files"], dest, ?_, ?_⟩
      · rw [hc]; simp [h]
      · intro op hop
        simp at hop
        rcases hop with rfl | rfl <;> simp [TarOp.stage]
  · rw [hc]
    by_cases h : goos = "windows"
    · simp [h, TarOp.stage]
    · simp [h, TarOp.stage]

/-- C5: for every destination `dest`, the directory `tarReader` hands to
`PrependDir` is "c:" when the platform is windows and `dest` is empty, and is
`dest` unchanged in every other case. -/
theorem tarReader_prependDir (goos dest : String) :
    prependDirOf (tarReader goos dest) =
        some (if goos = "windows" ∧ dest = "" then "c:" else dest)
      ∧ (prependDirOf (tarReader goos dest) ≠ some dest ↔ goos = "windows" ∧ dest = "") := by
  have hd : prependDirOf (tarReader goos dest) =
      some (if goos = "windows" ∧ dest = "" then "c:" else dest) := by
    unfold prependDirOf
    rw [tarReader_calls]
    by_cases h : goos = "windows"
    · by_cases hd : dest = ""
      · simp [h, hd]
      · simp [h, hd]
    · simp [h]
  refine ⟨hd, ?_⟩
  rw [hd]
  by_cases h : goos = "windows" ∧ dest = ""
  · simp only [h, and_self, if_true, iff_true]
    decide
  · simp [h]

/-- C6: `tarReader` configures an exclusion set and the ToWindows conversion
exactly when the platform is windows: there the exclusion set is ["Hives"]
and the conversion is on; on every other platform the calls are
Strip("Hives"), Strip("Files"), PrependDir(dest), with no excluded path and
no conversion. -/
theorem tarReader_platform_config (goos dest : String) :
    (configuresExclusion (tarReader goos dest) = true ↔ goos = "windows")
      ∧ (convertsToWindows (tarReader goos dest) = true ↔ goos = "windows")
      ∧ excludedPaths (tarReader goos dest) = (if goos = "windows" then ["Hives"] else [])
      ∧ (goos = "windows" ∨
          (tarReader goos dest).calls = [.Strip "Hives", .Strip "Files", .PrependDir dest]) := by
  have hc := tarReader_calls goos dest
  unfold configuresExclusion convertsToWindows excludedPaths
  rw [hc]
  by_cases h : goos = "windows"
  · simp [h]
  · simp [h]

/-! ## The Tar Transform Pipeline and the Extractor -/

/-- A path that does not escape from some depth does not escape from a
greater one. -/
theorem escapesFrom_succ (path : List String) :
    ∀ depth, escapesFrom depth path = false → escapesFrom (depth + 1) path = false := by
  induction path with
  | nil => intro _ _; rfl
  | cons s rest ih =>
    intro depth h
    unfold escapesFrom at h ⊢
    by_cases h1 : s = ".."
    · simp only [h1, if_true] at h ⊢
      cases depth with
      | zero => cases h
      | succ d => exact ih d h
    · simp only [h1, if_false] at h ⊢
      by_cases h2 : s = "."
      · simp only [h2, if_true] at h ⊢
        exact ih depth h
      · simp only [h2, if_false] at h ⊢
        exact ih (depth + 1) h

/-- The Platform conversion does not make a path escape. -/
theorem platformStage_not_escapes (sys : List String → Bool) (split : Bool)
    (path : List String) (h : escapesFrom 0 path = false) :
    escapesFrom 0 (platformStage sys split path) = false := by
  unfold platformStage
  cases split with
  | false => simpa using h
  | true =>
    simp only [if_true]
    have h1 := escapesFrom_succ path 0 h
    by_cases hs : sys path = true
    · rw [if_pos hs]
      have hd : escapesFrom 0 ("Hives" :: path) = escapesFrom 1 path := by
        rw [escapesFrom, if_neg (by decide), if_neg (by decide)]
      rw [hd]; exact h1
    · rw [if_neg hs]
      have hd : escapesFrom 0 ("Files" :: path) = escapesFrom 1 path := by
        rw [escapesFrom, if_neg (by decide), if_neg (by decide)]
      rw [hd]; exact h1

/-- An entry with a well-formed name is never answered with an error. -/
theorem normalizeEntry_ok_of_not_escapes (sys : List String → Bool)
    (tr : NormalizingTarReader) (e : TarEntry) (h : wouldEscape tr e.name = false) :
    ∃ o, normalizeEntry sys tr e = .ok o := by
  unfold normalizeEntry
  simp only [h, Bool.false_eq_true, if_false]
  split
  · exact ⟨none, rfl⟩
  · exact ⟨_, rfl⟩

/-- An entry with a malformed name is answered with `PathTraversalError`. -/
theorem normalizeEntry_error_of_escapes (sys : List String → Bool)
    (tr : NormalizingTarReader) (e : TarEntry) (h : wouldEscape tr e.name = true) :
    normalizeEntry sys tr e = .error (.PathTraversalError e.name) := by
  unfold normalizeEntry
  simp [h]

/-- An entry the normalizer rewrites has a well-formed name, and its new name
is the destination root joined with a path that does not escape. -/
theorem normalizeEntry_some (sys : List String → Bool) (tr : NormalizingTarReader)
    (e w : TarEntry) (h : normalizeEntry sys tr e = .ok (some w)) :
    wouldEscape tr e.name = false
      ∧ escapesFrom 0 (joinedPath sys tr e.name) = false
      ∧ w.name = prependStage (prependDirOf tr) (joinedPath sys tr e.name)
      ∧ w.body = e.body := by
  unfold normalizeEntry at h
  by_cases hw : wouldEscape tr e.name = true
  · rw [if_pos hw] at h; cases h
  · have hw' : wouldEscape tr e.name = false := by simpa using hw
    rw [if_neg hw] at h
    have hs : escapesFrom 0 (stripStage (stripLabels tr) (segments e.name)) = false := by
      unfold wouldEscape at hw'
      rw [Bool.or_eq_false_iff] at hw'
      exact hw'.2
    refine ⟨hw', platformStage_not_escapes sys _ _ hs, ?_⟩
    by_cases hx : isExcluded (excludedPaths tr)
        (stripStage (stripLabels tr) (segments e.name)) = true
    · simp only [hx, if_true] at h
      cases h
    · simp only [hx, if_false] at h
      injection h with h
      injection h with h
      subst h
      exact ⟨rfl, rfl⟩

/-- Extraction of a well-formed beginning followed by more entries: the
beginning is written in full, then the rest is extracted. -/
theorem Untar_append_of_wellformed (sys : List String → Bool) (tr : NormalizingTarReader)
    (pre rest : List TarEntry) (h : ∀ x ∈ pre, wouldEscape tr x.name = false) :
    (Untar sys tr pre).err = none
      ∧ Untar sys tr (pre ++ rest) =
          ⟨(Untar sys tr pre).written ++ (Untar sys tr rest).written, (Untar sys tr rest).err⟩ := by
  induction pre with
  | nil => exact ⟨rfl, rfl⟩
  | cons x xs ih =>
    have hx := h x (List.mem_cons_self _ _)
    have ih := ih (fun y hy => h y (List.mem_cons_of_mem _ hy))
    obtain ⟨o, ho⟩ := normalizeEntry_ok_of_not_escapes sys tr x hx
    cases o with
    | none =>
      simp only [List.cons_append, Untar, ho]
      exact ih
    | some w =>
      simp only [List.cons_append, Untar, ho]
      refine ⟨ih.1, ?_⟩
      show ExtractResult.mk (w :: (Untar sys tr (xs ++ rest)).written)
        (Untar sys tr (xs ++ rest)).err = _
      rw [ih.2]

/-- What is written comes from entries of the archive that the normalizer
accepted and rewrote. -/
theorem Untar_written_from (sys : List String → Bool) (tr : NormalizingTarReader)
    (r : List TarEntry) :
    ∀ w ∈ (Untar sys tr r).written, ∃ x ∈ r, normalizeEntry sys tr x = .ok (some w) := by
  induction r with
  | nil => intro w hw; simp [Untar] at hw
  | cons x xs ih =>
    intro w hw
    unfold Untar at hw
    split at hw
    · simp at hw
    · obtain ⟨y, hy, hyw⟩ := ih w hw
      exact ⟨y, List.mem_cons_of_mem _ hy, hyw⟩
    · rename_i e' he'
      simp only [List.mem_cons] at hw
      rcases hw with rfl | hw
      · exact ⟨x, List.mem_cons_self _ _, he'⟩
      · obtain ⟨y, hy, hyw⟩ := ih w hw
        exact ⟨y, List.mem_cons_of_mem _ hy, hyw⟩

/-- An archive with a malformed name splits at the first such entry. -/
theorem exists_first_escaping (tr : NormalizingTarReader) (r : List TarEntry)
    (h : ∃ e ∈ r, wouldEscape tr e.name = true) :
    ∃ pre e post, r = pre ++ e :: post ∧ (∀ x ∈ pre, wouldEscape tr x.name = false)
      ∧ wouldEscape tr e.name = true := by
  induction r with
  | nil => obtain ⟨e, he, _⟩ := h; simp at he
  | cons x xs ih =>
    by_cases hx : wouldEscape tr x.name = true
    · exact ⟨[], x, xs, rfl, by simp, hx⟩
    · obtain ⟨e, he, hesc⟩ := h
      have hmem : e ∈ xs := by
        rcases List.mem_cons.mp he with rfl | h'
        · exact absurd hesc hx
        · exact h'
      obtain ⟨pre, e', post, hr, hpre, he'⟩ := ih ⟨e, hmem, hesc⟩
      refine ⟨x :: pre, e', post, by rw [hr]; rfl, ?_, he'⟩
      intro y hy
      rcases List.mem_cons.mp hy with rfl | hy
      · simpa using hx
      · exact hpre y hy

/-- C1 (against the pipeline and `Untar` as the specification describes them):
for every archive and every destination root, if the archive has an entry
whose name has `..` segments resolving above the destination root, as the
name stands in the archive or as the Strip stage leaves it to be joined onto
the root, then `Extract(r, dest)` returns a `PathTraversalError` naming the
first such entry; what is written is what the entries before it give, so
nothing is written for an entry with such a name; and every name written is
the destination root joined with a path that does not escape, so no such
name is joined onto `dest` and passed on. -/
theorem Extract_rejects_path_traversal (sys : List String → Bool) (goos : String)
    (r : List TarEntry) (dest : String)
    (h : ∃ e ∈ r, wouldEscape (tarReader goos dest) e.name = true) :
    ∃ pre e post, r = pre ++ e :: post
      ∧ (∀ x ∈ pre, wouldEscape (tarReader goos dest) x.name = false)
      ∧ wouldEscape (tarReader goos dest) e.name = true
      ∧ (Extract sys goos r dest).err = some (.PathTraversalError e.name)
      ∧ (Extract sys goos r dest).written = (Extract sys goos pre dest).written
      ∧ (∀ w ∈ (Extract sys goos r dest).written,
          ∃ x ∈ pre, wouldEscape (tarReader goos dest) x.name = false
            ∧ escapesFrom 0 (joinedPath sys (tarReader goos dest) x.name) = false
            ∧ w.name = prependStage (prependDirOf (tarReader goos dest))
                (joinedPath sys (tarReader goos dest) x.name)
            ∧ w.body = x.body) := by
  obtain ⟨pre, e, post, hr, hpre, he⟩ := exists_first_escaping (tarReader goos dest) r h
  have happ := (Untar_append_of_wellformed sys (tarReader goos dest) pre (e :: post) hpre).2
  have hrest : Untar sys (tarReader goos dest) (e :: post)
      = ⟨[], some (.PathTraversalError e.name)⟩ := by
    simp only [Untar, normalizeEntry_error_of_escapes sys _ e he]
  have hE : Extract sys goos r dest
      = ⟨(Untar sys (tarReader goos dest) pre).written, some (.PathTraversalError e.name)⟩ := by
    show Untar sys (tarReader goos dest) r = _
    rw [hr, happ, hrest, List.append_nil]
  refine ⟨pre, e, post, hr, hpre, he, ?_, ?_, ?_⟩
  · rw [hE]
  · rw [hE]; rfl
  · intro w hw
    rw [hE] at hw
    obtain ⟨x, hx, hxw⟩ := Untar_written_from sys (tarReader goos dest) pre w hw
    obtain ⟨h1, h2, h3, h4⟩ := normalizeEntry_some sys (tarReader goos dest) x w hxw
    exact ⟨x, hx, h1, h2, h3, h4⟩

/-- A witness of C1: the second entry of a three-entry archive is named
"Hives/Files/../../etc/passwd", which escapes once the Strip stage has
removed its first two segments. -/
theorem Extract_rejects_path_traversal_witness :
    (∃ e ∈ [fileEntry "Files/a" "x", fileEntry "Hives/Files/../../etc/passwd" "y",
          fileEntry "b" "z"],
        wouldEscape (tarReader "linux" "/layers") e.name = true)
      ∧ ∃ pre e post,
        [fileEntry "Files/a" "x", fileEntry "Hives/Files/../../etc/passwd" "y",
            fileEntry "b" "z"] = pre ++ e :: post
          ∧ (∀ x ∈ pre, wouldEscape (tarReader "linux" "/layers") x.name = false)
          ∧ wouldEscape (tarReader "linux" "/layers") e.name = true
          ∧ (Extract (fun _ => false) "linux"
              [fileEntry "Files/a" "x", fileEntry "Hives/Files/../../etc/passwd" "y",
                fileEntry "b" "z"] "/layers").err = some (.PathTraversalError e.name)
          ∧ (Extract (fun _ => false) "linux"
              [fileEntry "Files/a" "x", fileEntry "Hives/Files/../../etc/passwd" "y",
                fileEntry "b" "z"] "/layers").written
              = (Extract (fun _ => false) "linux" pre "/layers").written
          ∧ (∀ w ∈ (Extract (fun _ => false) "linux"
              [fileEntry "Files/a" "x", fileEntry "Hives/Files/../../etc/passwd" "y",
                fileEntry "b" "z"] "/layers").written,
              ∃ x ∈ pre, wouldEscape (tarReader "linux" "/layers") x.name = false
                ∧ escapesFrom 0
                    (joinedPath (fun _ => false) (tarReader "linux" "/layers") x.name) = false
                ∧ w.name = prependStage (prependDirOf (tarReader "linux" "/layers"))
                    (joinedPath (fun _ => false) (tarReader "linux" "/layers") x.name)
                ∧ w.body = x.body) :=
  ⟨⟨fileEntry "Hives/Files/../../etc/passwd" "y", by decide, by decide⟩,
    Extract_rejects_path_traversal (fun _ => false) "linux"
      [fileEntry "Files/a" "x", fileEntry "Hives/Files/../../etc/passwd" "y",
        fileEntry "b" "z"] "/layers"
      ⟨fileEntry "Hives/Files/../../etc/passwd" "y", by decide, by decide⟩⟩

/-! ## The Filesystem Snapshotter -/

/-- In a list without two elements of the same key, the elements with the key
of a member are that member alone. -/
theorem filter_key_eq_singleton {α : Type} (key : α → String) (l : List α)
    (hnd : (l.map key).Nodup) (x : α) (hx : x ∈ l) :
    l.filter (fun y => key y = key x) = [x] := by
  induction l with
  | nil => simp at hx
  | cons a as ih =>
    rw [List.map_cons, List.nodup_cons] at hnd
    rcases List.mem_cons.mp hx with rfl | hx
    · have hno : ∀ y ∈ as, ¬ key y = key x := by
        intro y hy hk
        exact hnd.1 (hk ▸ List.mem_map_of_mem key hy)
      rw [List.filter_cons_of_pos (by simp)]
      congr 1
      exact List.filter_eq_nil_iff.mpr (by simpa using hno)
    · have hne : ¬ key a = key x := by
        intro hk
        exact hnd.1 (hk ▸ List.mem_map_of_mem key hx)
      rw [List.filter_cons_of_neg (by simpa using hne)]
      exact ih hnd.2 hx

/-- Filtering leaves a list without two elements of the same key so. -/
theorem nodup_map_filter {α : Type} (key : α → String) (q : α → Bool) (l : List α)
    (hnd : (l.map key).Nodup) : ((l.filter q).map key).Nodup :=
  List.Nodup.sublist (List.Sublist.map key (List.filter_sublist l)) hnd

/-- What `Init` leaves: the Ignore Set decides the walk, and the baseline is
the inventory of that walk. -/
theorem Init_baseline (s : KanikoSnapshotter) (detected : List String) (fs : List File) :
    (s.Init detected fs).baseline =
      ((s.Init detected fs).walk fs).map (fun f => (f.path, f.fingerprint)) := by
  unfold KanikoSnapshotter.Init
  by_cases h : s.DetectFilesystemIgnoreList = true
  · simp only [h, if_true]
    rfl
  · simp only [h]
    rfl

/-- Every directory above a path is a proper beginning of it, up to a slash. -/
theorem ancestorsFrom_spec (seen s : List Char) :
    ∀ d ∈ ancestorsFrom seen s, ∃ rest, seen.reverse ++ s = d.data ++ '/' :: rest := by
  induction s generalizing seen with
  | nil => intro d hd; simp [ancestorsFrom] at hd
  | cons c cs ih =>
    intro d hd
    unfold ancestorsFrom at hd
    by_cases hc : c = '/'
    · rw [if_pos hc] at hd
      rcases List.mem_cons.mp hd with rfl | hd
      · exact ⟨cs, by rw [hc]⟩
      · obtain ⟨rest, hr⟩ := ih (c :: seen) d hd
        exact ⟨rest, by rw [← hr]; simp⟩
    · rw [if_neg hc] at hd
      obtain ⟨rest, hr⟩ := ih (c :: seen) d hd
      exact ⟨rest, by rw [← hr]; simp⟩

/-- Every directory above a path is a proper beginning of it, up to a slash. -/
theorem ancestors_spec (p : String) :
    ∀ d ∈ ancestors p, ∃ rest, p.data = d.data ++ '/' :: rest := by
  intro d hd
  unfold ancestors at hd
  have := ancestorsFrom_spec [] p.data d (List.mem_of_mem_filter hd)
  simpa using this

/-- What lies below a path under `ig` is under `ig`. -/
theorem isUnder_below (ig q rest : List Char) (h : isUnder ig q = true) :
    isUnder ig (q ++ '/' :: rest) = true := by
  unfold isUnder at h ⊢
  rw [Bool.or_eq_true] at h ⊢
  right
  rw [List.isPrefixOf_iff_prefix]
  rcases h with h | h
  · have hq : q = ig := by simpa using h
    rw [hq]
    exact ⟨rest, by simp⟩
  · rw [List.isPrefixOf_iff_prefix] at h
    exact h.trans (List.prefix_append _ _)

/-- A path with an ignored directory above it is ignored. -/
theorem ignores_of_ancestor (S : KanikoSnapshotter) (p d : String)
    (hd : d ∈ ancestors p) (hi : S.ignores d = true) : S.ignores p = true := by
  obtain ⟨rest, hr⟩ := ancestors_spec p d hd
  unfold KanikoSnapshotter.ignores at hi ⊢
  rw [List.any_eq_true] at hi ⊢
  obtain ⟨ig, hig, hu⟩ := hi
  refine ⟨ig, hig, ?_⟩
  have : absPath S.RootDir p = absPath S.RootDir d ++ '/' :: rest := by
    unfold absPath
    rw [hr]
    simp
  rw [this]
  exact isUnder_below _ _ _ hu

/-- Putting the entries in order keeps which entries satisfy a test, when
there is at most one. -/
theorem filter_insertionSort_of_le_one (q : Entry → Bool) (L l : List Entry)
    (hl : l.length ≤ 1) (h : L.filter q = l) :
    (List.insertionSort entryLe L).filter q = l := by
  have hp : ((List.insertionSort entryLe L).filter q).Perm l :=
    h ▸ (List.perm_insertionSort entryLe L).filter q
  match l, hl with
  | [], _ => exact hp.eq_nil
  | [a], _ => exact List.perm_singleton.mp hp

/-- The file and whiteout entries about a path, in an archive before it is
put in order. -/
theorem filter_isFor_parts (p : String) (dirs : List String) (changed : List File)
    (deleted : List (String × Nat)) :
    (dirs.map Entry.directory ++ changed.map (fun f => Entry.file f.path f.content)
        ++ deleted.map (fun b => Entry.whiteout b.1)).filter (Entry.isFor p) =
      (changed.filter (fun f => f.path = p)).map (fun f => Entry.file f.path f.content)
        ++ (deleted.filter (fun b => b.1 = p)).map (fun b => Entry.whiteout b.1) := by
  rw [List.filter_append, List.filter_append, List.filter_map, List.filter_map, List.filter_map]
  have hd : dirs.filter (Entry.isFor p ∘ Entry.directory) = [] :=
    List.filter_eq_nil_iff.mpr (by intro a _; simp [Entry.isFor])
  rw [hd]
  rfl

/-- A file of the walk is not ignored and is a file of the listing. -/
theorem mem_walk (S : KanikoSnapshotter) (fs : List File) (f : File) :
    f ∈ S.walk fs ↔ f ∈ fs ∧ S.ignores f.path = false := by
  unfold KanikoSnapshotter.walk
  simp [List.mem_filter]

/-- The walk of a listing without two files of the same path has none. -/
theorem nodup_walk (S : KanikoSnapshotter) (fs : List File)
    (h : (fs.map File.path).Nodup) : ((S.walk fs).map File.path).Nodup :=
  nodup_map_filter File.path _ fs h

/-- Whether a file counts as changed against the inventory of a walk: it
does unless the walk held a file of the same path and fingerprint. -/
theorem isChanged_walk (S : KanikoSnapshotter) (fs0 : List File)
    (h0 : (fs0.map File.path).Nodup) (f : File) :
    isChanged ((S.walk fs0).map (fun g => (g.path, g.fingerprint))) f = false ↔
      ∃ g ∈ S.walk fs0, g.path = f.path ∧ g.fingerprint = f.fingerprint := by
  unfold isChanged
  constructor
  · intro h
    split at h
    · cases h
    · rename_i b hb
      have hmem := List.mem_of_find?_eq_some hb
      have hkey := List.find?_some hb
      obtain ⟨g, hg, rfl⟩ := List.mem_map.mp hmem
      exact ⟨g, hg, by simpa using hkey, by simpa using h⟩
  · rintro ⟨g, hg, hp, hf⟩
    split
    · rename_i hnone
      have := List.find?_eq_none.mp hnone (g.path, g.fingerprint)
        (List.mem_map_of_mem _ hg)
      simp [hp] at this
    · rename_i b hb
      have hmem := List.mem_of_find?_eq_some hb
      have hkey := List.find?_some hb
      obtain ⟨g', hg', rfl⟩ := List.mem_map.mp hmem
      have hpath : g'.path = g.path := by
        have : g'.path = f.path := by simpa using hkey
        rw [this, hp]
      have : g' = g :=
        List.inj_on_of_nodup_map (nodup_walk S fs0 h0) hg' hg hpath
      subst this
      simp [hf]

/-- The file and whiteout entries about a path in the archive of
`TakeSnapshot`, when each of the two kinds has at most one. -/
theorem TakeSnapshot_filter_isFor (S : KanikoSnapshotter) (fs1 : List File) (p : String)
    (cs : List File) (ds : List (String × Nat)) (hlen : cs.length + ds.length ≤ 1)
    (hc : ((S.walk fs1).filter (isChanged S.baseline)).filter (fun f => f.path = p) = cs)
    (hd : (S.baseline.filter
        (fun b => !(S.walk fs1).any (fun f => f.path = b.1))).filter (fun b => b.1 = p) = ds) :
    (S.TakeSnapshot fs1).filter (Entry.isFor p) =
      cs.map (fun f => Entry.file f.path f.content) ++ ds.map (fun b => Entry.whiteout b.1) := by
  unfold KanikoSnapshotter.TakeSnapshot
  apply filter_insertionSort_of_le_one
  · simpa using hlen
  · rw [filter_isFor_parts, hc, hd]

/-- The four cases of the delta, for a snapshotter whose baseline is the
inventory of its walk of `fs0`. -/
theorem TakeSnapshot_cases (S : KanikoSnapshotter) (fs0 fs1 : List File)
    (hb : S.baseline = (S.walk fs0).map (fun f => (f.path, f.fingerprint)))
    (h0 : (fs0.map File.path).Nodup) (h1 : (fs1.map File.path).Nodup) :
    (∀ f ∈ fs1, S.ignores f.path = false →
        (∀ g ∈ fs0, g.path = f.path → g.fingerprint ≠ f.fingerprint) →
        (S.TakeSnapshot fs1).filter (Entry.isFor f.path) = [.file f.path f.content])
      ∧ (∀ g ∈ fs0, S.ignores g.path = false → (∀ f ∈ fs1, f.path ≠ g.path) →
        (S.TakeSnapshot fs1).filter (Entry.isFor g.path) = [.whiteout g.path])
      ∧ (∀ f ∈ fs1, (∃ g ∈ fs0, g.path = f.path ∧ g.fingerprint = f.fingerprint) →
        (S.TakeSnapshot fs1).filter (Entry.isFor f.path) = [])
      ∧ (∀ p, S.ignores p = true → (S.TakeSnapshot fs1).filter (Entry.touches p) = []) := by
  have hn1 := nodup_walk S fs1 h1
  have hn0 := nodup_walk S fs0 h0
  refine ⟨?_, ?_, ?_, ?_⟩
  · intro f hf hi hdiff
    have hcur : f ∈ S.walk fs1 := (mem_walk S fs1 f).mpr ⟨hf, hi⟩
    have hch : isChanged S.baseline f = true := by
      rw [hb]
      by_contra hne
      have hfalse : isChanged ((S.walk fs0).map (fun g => (g.path, g.fingerprint))) f = false := by
        simpa using hne
      obtain ⟨g, hg, hp, hfp⟩ := (isChanged_walk S fs0 h0 f).mp hfalse
      exact hdiff g ((mem_walk S fs0 g).mp hg).1 hp hfp
    have hmem : f ∈ (S.walk fs1).filter (isChanged S.baseline) :=
      List.mem_filter.mpr ⟨hcur, hch⟩
    have hc := filter_key_eq_singleton File.path _
      (nodup_map_filter File.path (isChanged S.baseline) _ hn1) f hmem
    have hd : (S.baseline.filter
        (fun b => !(S.walk fs1).any (fun f => f.path = b.1))).filter
          (fun b => b.1 = f.path) = [] := by
      apply List.filter_eq_nil_iff.mpr
      intro b hbm hk
      have hany := (List.mem_filter.mp hbm).2
      have hk' : b.1 = f.path := by simpa using hk
      have : (S.walk fs1).any (fun f => f.path = b.1) = true :=
        List.any_eq_true.mpr ⟨f, hcur, by simp [hk']⟩
      simp [this] at hany
    have := TakeSnapshot_filter_isFor S fs1 f.path [f] [] (by simp) hc hd
    simpa using this
  · intro g hg hi habs
    have hbase : (g.path, g.fingerprint) ∈ S.baseline := by
      rw [hb]
      exact List.mem_map_of_mem _ ((mem_walk S fs0 g).mpr ⟨hg, hi⟩)
    have hnot : (S.walk fs1).any (fun f => f.path = g.path) = false := by
      rw [List.any_eq_false]
      intro f hf
      simpa using habs f ((mem_walk S fs1 f).mp hf).1
    have hmem : (g.path, g.fingerprint) ∈ S.baseline.filter
        (fun b => !(S.walk fs1).any (fun f => f.path = b.1)) :=
      List.mem_filter.mpr ⟨hbase, by simp [hnot]⟩
    have hnb : (S.baseline.map Prod.fst).Nodup := by
      rw [hb, List.map_map]
      exact hn0
    have hd := filter_key_eq_singleton Prod.fst _
      (nodup_map_filter Prod.fst (fun b => !(S.walk fs1).any (fun f => f.path = b.1)) _ hnb)
      (g.path, g.fingerprint) hmem
    have hc : ((S.walk fs1).filter (isChanged S.baseline)).filter
        (fun f => f.path = g.path) = [] := by
      apply List.filter_eq_nil_iff.mpr
      intro f hfm hk
      have hf1 := ((mem_walk S fs1 f).mp (List.mem_filter.mp hfm).1).1
      exact habs f hf1 (by simpa using hk)
    have := TakeSnapshot_filter_isFor S fs1 g.path [] [(g.path, g.fingerprint)] (by simp) hc hd
    simpa using this
  · intro f hf hsame
    obtain ⟨g, hg, hp, hfp⟩ := hsame
    have hc : ((S.walk fs1).filter (isChanged S.baseline)).filter
        (fun f' => f'.path = f.path) = [] := by
      apply List.filter_eq_nil_iff.mpr
      intro f' hfm hk
      have hk' : f'.path = f.path := by simpa using hk
      obtain ⟨hcur, hch⟩ := List.mem_filter.mp hfm
      obtain ⟨hf1, hi⟩ := (mem_walk S fs1 f').mp hcur
      have : f' = f := List.inj_on_of_nodup_map h1 hf1 hf hk'
      subst this
      have hgw : g ∈ S.walk fs0 := (mem_walk S fs0 g).mpr ⟨hg, by rw [hp]; exact hi⟩
      have := (isChanged_walk S fs0 h0 f').mpr ⟨g, hgw, hp, hfp⟩
      rw [hb, this] at hch
      cases hch
    have hd : (S.baseline.filter
        (fun b => !(S.walk fs1).any (fun f => f.path = b.1))).filter
          (fun b => b.1 = f.path) = [] := by
      apply List.filter_eq_nil_iff.mpr
      intro b hbm hk
      have hk' : b.1 = f.path := by simpa using hk
      obtain ⟨hbase, hany⟩ := List.mem_filter.mp hbm
      rw [hb] at hbase
      obtain ⟨g', hg', rfl⟩ := List.mem_map.mp hbase
      have hi : S.ignores f.path = false := by
        have := ((mem_walk S fs0 g').mp hg').2
        rw [← hk']; exact this
      have hcur : f ∈ S.walk fs1 := (mem_walk S fs1 f).mpr ⟨hf, hi⟩
      have : (S.walk fs1).any (fun f => f.path = g'.path) = true :=
        List.any_eq_true.mpr ⟨f, hcur, by simpa using hk'.symm⟩
      simp [this] at hany
    have := TakeSnapshot_filter_isFor S fs1 f.path [] [] (by simp) hc hd
    simpa using this
  · intro p hi
    have hq : ∀ e ∈ S.TakeSnapshot fs1, ¬ Entry.touches p e = true := by
      intro e he
      unfold KanikoSnapshotter.TakeSnapshot at he
      rw [(List.perm_insertionSort entryLe _).mem_iff] at he
      simp only [List.mem_append, List.mem_map, List.mem_dedup, List.mem_flatMap,
        List.mem_filter] at he
      rcases he with (⟨d, ⟨f, ⟨hcur, _⟩, hd⟩, rfl⟩ | ⟨f, ⟨hcur, _⟩, rfl⟩) | ⟨b, ⟨hbase, _⟩, rfl⟩
      · intro ht
        have hdp : d = p := by simpa [Entry.touches] using ht
        have := ignores_of_ancestor S f.path d hd (hdp ▸ hi)
        rw [((mem_walk S fs1 f).mp hcur).2] at this
        cases this
      · intro ht
        have hfp : f.path = p := by simpa [Entry.touches] using ht
        rw [← hfp, ((mem_walk S fs1 f).mp hcur).2] at hi
        cases hi
      · intro ht
        have hbp : b.1 = p := by simpa [Entry.touches] using ht
        rw [hb] at hbase
        obtain ⟨g, hg, rfl⟩ := List.mem_map.mp hbase
        have hgp : g.path = p := hbp
        rw [← hgp, ((mem_walk S fs0 g).mp hg).2] at hi
        cases hi
    exact List.filter_eq_nil_iff.mpr hq

/-- C2 (against `Init` and `TakeSnapshot` as the specification describes
them): for every watched root, ignore set and pair of filesystem states at
`Init` and at `TakeSnapshot`, the archive holds exactly one file or whiteout
entry about each file added or modified since `Init`, a file entry with the
current content; exactly one about each file removed since `Init`, its
whiteout; none about an unchanged file; and no entry at all, directory
headers included, about a path under an ignored prefix. In the scenario of
the test the entries that are not directories are four: the whiteout for
file-to-delete, file-to-change with "hola\n", my-space/newfile-in-dir and
newfile with "hello\n". -/
theorem TakeSnapshot_delta (s : KanikoSnapshotter) (detected : List String)
    (fs0 fs1 : List File) (h0 : (fs0.map File.path).Nodup) (h1 : (fs1.map File.path).Nodup) :
    (∀ f ∈ fs1, (s.Init detected fs0).ignores f.path = false →
        (∀ g ∈ fs0, g.path = f.path → g.fingerprint ≠ f.fingerprint) →
        ((s.Init detected fs0).TakeSnapshot fs1).filter (Entry.isFor f.path)
          = [.file f.path f.content])
      ∧ (∀ g ∈ fs0, (s.Init detected fs0).ignores g.path = false →
        (∀ f ∈ fs1, f.path ≠ g.path) →
        ((s.Init detected fs0).TakeSnapshot fs1).filter (Entry.isFor g.path)
          = [.whiteout g.path])
      ∧ (∀ f ∈ fs1, (∃ g ∈ fs0, g.path = f.path ∧ g.fingerprint = f.fingerprint) →
        ((s.Init detected fs0).TakeSnapshot fs1).filter (Entry.isFor f.path) = [])
      ∧ (∀ p, (s.Init detected fs0).ignores p = true →
        ((s.Init detected fs0).TakeSnapshot fs1).filter (Entry.touches p) = [])
      ∧ (((testSnapshotter "/tmp/kaniko").Init [] testFilesAtInit).TakeSnapshot
            testFilesAtSnapshot).filter (fun e => !e.isDir)
          = [.whiteout "file-to-delete", .file "file-to-change" "hola\n",
              .file "my-space/newfile-in-dir" "hello\n", .file "newfile" "hello\n"] := by
  obtain ⟨a, b, c, d⟩ :=
    TakeSnapshot_cases (s.Init detected fs0) fs0 fs1 (Init_baseline s detected fs0) h0 h1
  exact ⟨a, b, c, d, by decide⟩

/-- A witness of C2: the scenario of the test, where newfile is added,
file-to-delete is removed, file-not-to-change is unchanged and
layers/file-to-ignore is under an ignored prefix. -/
theorem TakeSnapshot_delta_witness :
    (testFilesAtInit.map File.path).Nodup ∧ (testFilesAtSnapshot.map File.path).Nodup
      ∧ (((testSnapshotter "/tmp/kaniko").Init [] testFilesAtInit).TakeSnapshot
            testFilesAtSnapshot).filter (Entry.isFor "newfile") = [.file "newfile" "hello\n"]
      ∧ (((testSnapshotter "/tmp/kaniko").Init [] testFilesAtInit).TakeSnapshot
            testFilesAtSnapshot).filter (Entry.isFor "file-to-delete")
          = [.whiteout "file-to-delete"]
      ∧ (((testSnapshotter "/tmp/kaniko").Init [] testFilesAtInit).TakeSnapshot
            testFilesAtSnapshot).filter (Entry.isFor "file-not-to-change") = []
      ∧ (((testSnapshotter "/tmp/kaniko").Init [] testFilesAtInit).TakeSnapshot
            testFilesAtSnapshot).filter (Entry.touches "layers/file-to-ignore") = [] :=
  have h := TakeSnapshot_delta (testSnapshotter "/tmp/kaniko") [] testFilesAtInit
    testFilesAtSnapshot (by decide) (by decide)
  ⟨by decide, by decide,
    h.1 ⟨"newfile", 7, "hello\n"⟩ (by decide) (by decide) (by decide),
    h.2.1 ⟨"file-to-delete", 5, "hello\n"⟩ (by decide) (by decide) (by decide),
    h.2.2.1 ⟨"file-not-to-change", 4, "hello\n"⟩ (by decide)
      ⟨⟨"file-not-to-change", 4, "hello\n"⟩, by decide, rfl, rfl⟩,
    h.2.2.2.1 "layers/file-to-ignore" (by decide)⟩

end Lifecycle
